import Mathlib

/-!
Verification development for `bevy_observed_timers`, a library that attaches
tag-keyed timers to entities, ticks them each frame, and emits Finished /
Cancelled notifications.

The embedding models:
  * the external `bevy_time::Timer` primitive (modelled from the spec, which
    describes it as an external collaborator);
  * the `Timers` component (`src/core.rs`), an insertion-ordered map from
    `ComponentId` to `Timer` backed by `indexmap::IndexMap`, whose `remove`
    is IndexMap's `swap_remove` (swap the removed entry with the last entry
    and pop);
  * the `tick_entity_timers` system (`src/core.rs`): per entity, tick every
    timer in iteration order, trigger `OnTimerFinished` for each timer whose
    tick just finished, collect just-finished `Once` timers into a local list,
    and after the iteration swap-remove the collected tags;
  * the entity commands (`src/command.rs`): `StartTimer`, `ResetTimer`,
    `PauseTimer`, `UnpauseTimer`, `CancelTimer`.

Entities, `ComponentId` tags and durations are modelled as `Nat` (durations
in nanoseconds). Per-entity state is an association list with nodup keys,
mirroring the `IndexMap` invariant.
-/

namespace ObservedTimers

/-- Timer mode, mirroring `bevy_time::TimerMode`. -/
inductive TimerMode where
  | once
  | repeating
deriving DecidableEq, Repr

/-- Modelled from the spec: `bevy_time::Timer` is an external primitive not
part of this repository's sources. Per the spec it carries a `duration`, an
`elapsed` progress value, a `mode` (`Once` or `Repeating`) and a `paused`
flag; `finished` is the derived predicate `elapsed ≥ duration`. -/
structure Timer where
  duration : Nat
  elapsed : Nat
  mode : TimerMode
  paused : Bool
deriving DecidableEq, Repr

/-- Modelled from the spec: the derived `finished` predicate of the external
`bevy_time::Timer` (elapsed has reached the duration). -/
def Timer.isFinished (t : Timer) : Bool :=
  t.duration ≤ t.elapsed

/-- Modelled from the spec: `Timer::tick(delta)` of the external
`bevy_time::Timer`. A paused timer does not advance and never transitions to
finished; an already-finished `Once` timer stays put and does not fire again;
an unfinished `Once` timer accumulates, clamps to its duration and fires when
it reaches it; a `Repeating` timer fires on crossing a cycle boundary and
wraps its elapsed value modulo the duration (a zero-duration timer is always
at its bound and never *becomes* finished, so it never fires). Returns the
advanced timer together with its `just_finished` flag for this tick. -/
def Timer.tick (t : Timer) (delta : Nat) : Timer × Bool :=
  if t.paused then (t, false)
  else
    match t.mode with
    | TimerMode.once =>
      if t.duration ≤ t.elapsed then (t, false)
      else if t.duration ≤ t.elapsed + delta then
        ({ t with elapsed := t.duration }, true)
      else ({ t with elapsed := t.elapsed + delta }, false)
    | TimerMode.repeating =>
      if t.duration = 0 then (t, false)
      else if t.duration ≤ t.elapsed + delta then
        ({ t with elapsed := (t.elapsed + delta) % t.duration }, true)
      else ({ t with elapsed := t.elapsed + delta }, false)

/-- Modelled from the spec: `Timer::reset` re-initializes elapsed progress to
zero while preserving duration, mode and the pause flag. -/
def Timer.reset (t : Timer) : Timer :=
  { t with elapsed := 0 }

/-- Modelled from the spec: `Timer::pause` sets the pause flag without
affecting elapsed progress. -/
def Timer.pause (t : Timer) : Timer :=
  { t with paused := true }

/-- Modelled from the spec: `Timer::unpause` clears the pause flag without
affecting elapsed progress. -/
def Timer.unpause (t : Timer) : Timer :=
  { t with paused := false }

/-- The stable tag identifier (`ComponentId` in the source). -/
abbrev TagId := Nat

/-- The `Timers` component of `src/core.rs`: an insertion-ordered map from
`TagId` to `Timer` (an `IndexMap` in the source), modelled as an association
list whose key list is nodup. -/
abbrev TimersMap := List (TagId × Timer)

/-- The keys of a `TimersMap`, in iteration order. -/
def tkeys (m : TimersMap) : List TagId :=
  m.map Prod.fst

/-- `Timers::get`: first (and, under the nodup-key invariant, only) timer
stored at the tag. -/
def tget : TimersMap → TagId → Option Timer
  | [], _ => none
  | (k, t) :: rest, tag => if k = tag then some t else tget rest tag

/-- `Timers::insert`, with `IndexMap::insert` semantics: an existing key keeps
its position and gets the new value; a fresh key is appended at the end. -/
def tinsert : TimersMap → TagId → Timer → TimersMap
  | [], tag, timer => [(tag, timer)]
  | (k, t) :: rest, tag, timer =>
    if k = tag then (tag, timer) :: rest
    else (k, t) :: tinsert rest tag timer

/-- Helper locating a key inside the map: returns the entries before it, its
timer, and the entries after it. -/
def splitOnKey : TimersMap → TagId → Option (TimersMap × Timer × TimersMap)
  | [], _ => none
  | (k, t) :: rest, tag =>
    if k = tag then some ([], t, rest)
    else
      match splitOnKey rest tag with
      | none => none
      | some (pre, u, post) => some ((k, t) :: pre, u, post)

/-- `Timers::remove`, which the source implements with `IndexMap::swap_remove`:
the removed entry is swapped with the last entry of the map and popped off, so
the previously-last entry takes the removed entry's position. Returns the new
map and the removed timer, if any. -/
def tremove (m : TimersMap) (tag : TagId) : TimersMap × Option Timer :=
  match splitOnKey m tag with
  | none => (m, none)
  | some (pre, t, post) =>
    match post.getLast? with
    | none => (pre, some t)
    | some last => (pre ++ last :: post.dropLast, some t)

/-- The notifications the crate emits: `OnTimerFinished` (from the tick
system) and `OnTimerCancelled` (from the cancel command), each targeted at an
(entity, TagId) pair via `TargetBoth`. -/
inductive Notif where
  | finished (entity : Nat) (tag : TagId)
  | cancelled (entity : Nat) (tag : TagId)
deriving DecidableEq, Repr

/-- The per-entity iteration pass of `tick_entity_timers`: tick every timer in
iteration order; when a tick reports just-finished, trigger `OnTimerFinished`
at (entity, tag) and, if the timer's mode is `Once`, push the tag onto the
local `finished_timers` list. Returns the updated map, the triggered
notifications in order, and the `finished_timers` removal list in order. -/
def tickPass (entity : Nat) (delta : Nat) :
    TimersMap → TimersMap × List Notif × List TagId
  | [] => ([], [], [])
  | (k, t) :: rest =>
    let tk := t.tick delta
    let r := tickPass entity delta rest
    if tk.2 then
      ((k, tk.1) :: r.1, Notif.finished entity k :: r.2.1,
        if tk.1.mode = TimerMode.once then k :: r.2.2 else r.2.2)
    else ((k, tk.1) :: r.1, r.2.1, r.2.2)

/-- The removal sweep at the end of `tick_entity_timers`: swap-remove every
tag collected in `finished_timers` from the entity's own map, in order. -/
def sweepRemove (m : TimersMap) (ks : List TagId) : TimersMap :=
  ks.foldl (fun acc k => (tremove acc k).1) m

/-- The body of `tick_entity_timers` (`src/core.rs`) for one entity: run the
iteration pass with the shared frame delta, then sweep-remove the collected
just-finished `Once` tags. Returns the new map and the notifications. -/
def tick_entity_timers (entity : Nat) (delta : Nat) (m : TimersMap) :
    TimersMap × List Notif :=
  let r := tickPass entity delta m
  (sweepRemove r.1 r.2.2, r.2.1)

/-- Iterating `tick_entity_timers` over `n` frames of the same delta,
accumulating all notifications in emission order. -/
def tickIter (entity : Nat) (delta : Nat) : Nat → TimersMap → TimersMap × List Notif
  | 0, m => (m, [])
  | n + 1, m =>
    let r := tick_entity_timers entity delta m
    let s := tickIter entity delta n r.1
    (s.1, r.2 ++ s.2)

/-- The world as the commands see it: the entities that exist, each with an
optional `Timers` component. An entity absent from the list does not exist. -/
abbrev World := List (Nat × Option TimersMap)

/-- Lookup of an entity's component slot; `none` means the entity does not
exist (`world.get_entity_mut` failed). -/
def wget : World → Nat → Option (Option TimersMap)
  | [], _ => none
  | (e, c) :: rest, entity => if e = entity then some c else wget rest entity

/-- Overwrite an existing entity's component slot in place. -/
def wset : World → Nat → Option TimersMap → World
  | [], _, _ => []
  | (e, c) :: rest, entity, slot =>
    if e = entity then (e, slot) :: rest else (e, c) :: wset rest entity slot

/-- `StartTimer::apply` (`src/command.rs`): if the entity does not exist, do
nothing; otherwise take its `Timers` component or a default empty one
(`entry::<Timers>().or_default()`) and insert the timer at the tag. Emits no
notification. -/
def StartTimer.apply (w : World) (entity : Nat) (tag : TagId) (timer : Timer) :
    World × List Notif :=
  match wget w entity with
  | none => (w, [])
  | some slot => (wset w entity (some (tinsert (slot.getD []) tag timer)), [])

/-- `ResetTimer::apply` (`src/command.rs`): no-op when the entity, its
`Timers` component, or the tag is absent; otherwise `Timer::reset` in place. -/
def ResetTimer.apply (w : World) (entity : Nat) (tag : TagId) :
    World × List Notif :=
  match wget w entity with
  | none => (w, [])
  | some none => (w, [])
  | some (some m) =>
    match tget m tag with
    | none => (w, [])
    | some t => (wset w entity (some (tinsert m tag t.reset)), [])

/-- `PauseTimer::apply` (`src/command.rs`): no-op when the entity, its
`Timers` component, or the tag is absent; otherwise `Timer::pause` in place. -/
def PauseTimer.apply (w : World) (entity : Nat) (tag : TagId) :
    World × List Notif :=
  match wget w entity with
  | none => (w, [])
  | some none => (w, [])
  | some (some m) =>
    match tget m tag with
    | none => (w, [])
    | some t => (wset w entity (some (tinsert m tag t.pause)), [])

/-- `UnpauseTimer::apply` (`src/command.rs`): no-op when the entity, its
`Timers` component, or the tag is absent; otherwise `Timer::unpause` in
place. -/
def UnpauseTimer.apply (w : World) (entity : Nat) (tag : TagId) :
    World × List Notif :=
  match wget w entity with
  | none => (w, [])
  | some none => (w, [])
  | some (some m) =>
    match tget m tag with
    | none => (w, [])
    | some t => (wset w entity (some (tinsert m tag t.unpause)), [])

/-- `CancelTimer::apply` (`src/command.rs`): no-op when the entity or its
`Timers` component is absent; otherwise `Timers::remove(tag)` and, only if
something was actually removed, trigger `OnTimerCancelled` at (entity, tag). -/
def CancelTimer.apply (w : World) (entity : Nat) (tag : TagId) :
    World × List Notif :=
  match wget w entity with
  | none => (w, [])
  | some none => (w, [])
  | some (some m) =>
    let r := tremove m tag
    (wset w entity (some r.1),
      if r.2.isSome then [Notif.cancelled entity tag] else [])

/-! Helper lemmas about the `Timer` model. -/

theorem Timer.tick_mode (t : Timer) (delta : Nat) :
    (t.tick delta).1.mode = t.mode := by
  rcases t with ⟨d, el, mode, p⟩
  rcases mode <;> simp only [Timer.tick] <;> split_ifs <;> rfl

theorem Timer.tick_duration (t : Timer) (delta : Nat) :
    (t.tick delta).1.duration = t.duration := by
  rcases t with ⟨d, el, mode, p⟩
  rcases mode <;> simp only [Timer.tick] <;> split_ifs <;> rfl

theorem Timer.tick_zero_duration (t : Timer) (delta : Nat) (h : t.duration = 0) :
    t.tick delta = (t, false) := by
  rcases t with ⟨d, el, mode, p⟩
  simp only at h
  subst h
  rcases mode <;> simp [Timer.tick]

theorem Timer.tick_paused (t : Timer) (delta : Nat) (h : t.paused = true) :
    t.tick delta = (t, false) := by
  simp [Timer.tick, h]

theorem Timer.tick_once_finished (t : Timer) (delta : Nat)
    (hm : t.mode = TimerMode.once) (h : t.duration ≤ t.elapsed) :
    t.tick delta = (t, false) := by
  rcases t with ⟨d, el, mode, p⟩
  simp only at hm h
  subst hm
  simp only [Timer.tick]
  split_ifs <;> simp_all

/-! Helper lemmas about the map operations. -/

theorem splitOnKey_eq_none {m : TimersMap} {tag : TagId}
    (h : splitOnKey m tag = none) : tag ∉ tkeys m := by
  induction m with
  | nil => simp [tkeys]
  | cons p rest ih =>
    rcases p with ⟨k, t⟩
    by_cases hk : k = tag
    · simp [splitOnKey, hk] at h
    · simp only [splitOnKey, if_neg hk] at h
      rcases hsp : splitOnKey rest tag with _ | ⟨pre, u, post⟩
      · intro hmem
        rcases (by simpa [tkeys] using hmem : tag = k ∨ tag ∈ tkeys rest) with h1 | h1
        · exact hk h1.symm
        · exact ih hsp h1
      · rw [hsp] at h
        simp at h

theorem splitOnKey_eq_some {m : TimersMap} {tag : TagId} {pre : TimersMap}
    {t : Timer} {post : TimersMap}
    (h : splitOnKey m tag = some (pre, t, post)) :
    m = pre ++ (tag, t) :: post ∧ tag ∉ tkeys pre := by
  induction m generalizing pre t post with
  | nil => simp [splitOnKey] at h
  | cons p rest ih =>
    rcases p with ⟨k, u⟩
    by_cases hk : k = tag
    · subst hk
      simp only [splitOnKey, if_pos rfl, Option.some.injEq, Prod.mk.injEq] at h
      obtain ⟨rfl, rfl, rfl⟩ := h
      simp [tkeys]
    · simp only [splitOnKey, if_neg hk] at h
      rcases hsp : splitOnKey rest tag with _ | ⟨pre1, u1, post1⟩
      · rw [hsp] at h
        simp at h
      · rw [hsp] at h
        simp only [Option.some.injEq, Prod.mk.injEq] at h
        obtain ⟨h1, h2, h3⟩ := h
        subst h2
        subst h3
        subst h1
        obtain ⟨heq, hnot⟩ := ih hsp
        constructor
        · simp [heq]
        · intro hmem
          rcases (by simpa [tkeys] using hmem : tag = k ∨ tag ∈ tkeys pre1) with h4 | h4
          · exact hk h4.symm
          · exact hnot h4

theorem tget_eq_none_iff {m : TimersMap} {tag : TagId} :
    tget m tag = none ↔ tag ∉ tkeys m := by
  induction m with
  | nil => simp [tget, tkeys]
  | cons p rest ih =>
    rcases p with ⟨k, t⟩
    by_cases hk : k = tag
    · simp [tget, hk, tkeys]
    · simp [tget, hk, tkeys, ih, Ne.symm hk]

theorem tget_mem {m : TimersMap} {tag : TagId} {t : Timer}
    (h : tget m tag = some t) : (tag, t) ∈ m := by
  induction m with
  | nil => simp [tget] at h
  | cons p rest ih =>
    rcases p with ⟨k, u⟩
    simp only [tget] at h
    split at h
    · next hk =>
        injection h with h2
        subst h2
        subst hk
        exact List.mem_cons_self _ _
    · next hk => exact List.mem_cons_of_mem _ (ih h)

theorem mem_tget {m : TimersMap} {tag : TagId} {t : Timer}
    (hnd : (tkeys m).Nodup) (h : (tag, t) ∈ m) : tget m tag = some t := by
  induction m with
  | nil => simp at h
  | cons p rest ih =>
    rcases p with ⟨k, u⟩
    simp only [tkeys, List.map_cons, List.nodup_cons] at hnd
    rcases List.mem_cons.mp h with heq | hmem
    · cases heq
      simp [tget]
    · have hk : k ≠ tag := by
        intro hk
        exact hnd.1 (hk.symm ▸ List.mem_map_of_mem Prod.fst hmem)
      simp only [tget, if_neg hk]
      exact ih hnd.2 hmem

theorem tkeys_nil : tkeys [] = [] := rfl

theorem tkeys_cons (p : TagId × Timer) (m : TimersMap) :
    tkeys (p :: m) = p.1 :: tkeys m := rfl

theorem tkeys_append (a b : TimersMap) : tkeys (a ++ b) = tkeys a ++ tkeys b := by
  simp [tkeys]

theorem splitOnKey_of_not_mem {m : TimersMap} {tag : TagId}
    (h : tag ∉ tkeys m) : splitOnKey m tag = none := by
  induction m with
  | nil => rfl
  | cons p rest ih =>
    rcases p with ⟨k, t⟩
    simp only [tkeys_cons, List.mem_cons, not_or] at h
    have hkne : ¬k = tag := fun hk => h.1 hk.symm
    simp only [splitOnKey, if_neg hkne, ih h.2]

theorem tget_append_cons {pre post : TimersMap} {tag : TagId} {t : Timer}
    (h : tag ∉ tkeys pre) :
    tget (pre ++ (tag, t) :: post) tag = some t := by
  induction pre with
  | nil => simp [tget]
  | cons p rest ih =>
    rcases p with ⟨k, u⟩
    simp only [tkeys_cons, List.mem_cons, not_or] at h
    have hkne : ¬k = tag := fun hk => h.1 hk.symm
    rw [List.cons_append]
    simp only [tget, if_neg hkne]
    exact ih h.2

theorem tremove_eq_of_split_none {m : TimersMap} {tag : TagId}
    (h : splitOnKey m tag = none) : tremove m tag = (m, none) := by
  unfold tremove
  rw [h]

theorem tremove_eq_pop {m : TimersMap} {tag : TagId} {pre : TimersMap}
    {t : Timer} {post : TimersMap}
    (h : splitOnKey m tag = some (pre, t, post)) (h2 : post.getLast? = none) :
    tremove m tag = (pre, some t) := by
  unfold tremove
  rw [h]
  simp only [h2]

theorem tremove_eq_swap {m : TimersMap} {tag : TagId} {pre : TimersMap}
    {t : Timer} {post : TimersMap} {last : TagId × Timer}
    (h : splitOnKey m tag = some (pre, t, post))
    (h2 : post.getLast? = some last) :
    tremove m tag = (pre ++ last :: post.dropLast, some t) := by
  unfold tremove
  rw [h]
  simp only [h2]

theorem tremove_snd {m : TimersMap} {tag : TagId} :
    (tremove m tag).2 = tget m tag := by
  rcases hsp : splitOnKey m tag with _ | ⟨pre, t, post⟩
  · rw [tremove_eq_of_split_none hsp,
      (tget_eq_none_iff).mpr (splitOnKey_eq_none hsp)]
  · obtain ⟨hm, hpre⟩ := splitOnKey_eq_some hsp
    rcases hpost : post.getLast? with _ | last
    · rw [tremove_eq_pop hsp hpost, hm, tget_append_cons hpre]
    · rw [tremove_eq_swap hsp hpost, hm, tget_append_cons hpre]

theorem tremove_of_not_mem {m : TimersMap} {tag : TagId}
    (h : tag ∉ tkeys m) : tremove m tag = (m, none) :=
  tremove_eq_of_split_none (splitOnKey_of_not_mem h)

theorem tremove_mem {m : TimersMap} {tag : TagId} {p : TagId × Timer}
    (hnd : (tkeys m).Nodup) :
    p ∈ (tremove m tag).1 ↔ p ∈ m ∧ p.1 ≠ tag := by
  rcases hsp : splitOnKey m tag with _ | ⟨pre, t, post⟩
  · have hnot := splitOnKey_eq_none hsp
    rw [tremove_eq_of_split_none hsp]
    constructor
    · intro hm
      refine ⟨hm, fun hq => hnot ?_⟩
      exact hq ▸ List.mem_map_of_mem Prod.fst hm
    · exact fun h => h.1
  · obtain ⟨hm, hpre⟩ := splitOnKey_eq_some hsp
    have h1 : ∀ q : TagId × Timer, q ∈ pre → q.1 ≠ tag := by
      intro q hq hq1
      exact hpre (hq1 ▸ List.mem_map_of_mem Prod.fst hq)
    rcases hpost : post.getLast? with _ | last
    · have hpost0 : post = [] := List.getLast?_eq_none_iff.mp hpost
      subst hpost0
      rw [tremove_eq_pop hsp hpost, hm]
      constructor
      · intro hp
        exact ⟨List.mem_append_left _ hp, h1 p hp⟩
      · rintro ⟨hp, hne⟩
        rcases List.mem_append.mp hp with hp1 | hp1
        · exact hp1
        · rcases List.mem_cons.mp hp1 with hp2 | hp2
          · exact absurd (congrArg Prod.fst hp2) hne
          · simp at hp2
    · obtain ⟨ys, hys⟩ := List.getLast?_eq_some_iff.mp hpost
      subst hys
      subst hm
      rw [tremove_eq_swap hsp hpost]
      have hnd2 : (tag :: (tkeys ys ++ [last.1])).Nodup := by
        have h5 := hnd
        simp only [tkeys_append, tkeys_cons, tkeys_nil] at h5
        exact h5.of_append_right
      have htail : tag ∉ tkeys ys ++ [last.1] := (List.nodup_cons.mp hnd2).1
      have h2 : ∀ q : TagId × Timer, q ∈ ys → q.1 ≠ tag := by
        intro q hq hq1
        exact htail (List.mem_append_left _ (hq1 ▸ List.mem_map_of_mem Prod.fst hq))
      have h3 : last.1 ≠ tag := by
        intro hq1
        exact htail (List.mem_append_right _ (by simp [hq1]))
      simp only [List.dropLast_concat]
      constructor
      · intro hp
        rcases List.mem_append.mp hp with hp1 | hp1
        · exact ⟨List.mem_append_left _ hp1, h1 p hp1⟩
        · rcases List.mem_cons.mp hp1 with hp2 | hp2
          · subst hp2
            exact ⟨List.mem_append_right _ (List.mem_cons_of_mem _
              (List.mem_append_right _ (by simp))), h3⟩
          · exact ⟨List.mem_append_right _ (List.mem_cons_of_mem _
              (List.mem_append_left _ hp2)), h2 p hp2⟩
      · rintro ⟨hp, hne⟩
        rcases List.mem_append.mp hp with hp1 | hp1
        · exact List.mem_append_left _ hp1
        · rcases List.mem_cons.mp hp1 with hp2 | hp2
          · exact absurd (congrArg Prod.fst hp2) hne
          · rcases List.mem_append.mp hp2 with hp3 | hp3
            · exact List.mem_append_right _ (List.mem_cons_of_mem _ hp3)
            · simp only [List.mem_singleton] at hp3
              subst hp3
              exact List.mem_append_right _ (List.mem_cons_self _ _)

theorem tremove_nodup {m : TimersMap} {tag : TagId}
    (hnd : (tkeys m).Nodup) : (tkeys (tremove m tag).1).Nodup := by
  rcases hsp : splitOnKey m tag with _ | ⟨pre, t, post⟩
  · rw [tremove_eq_of_split_none hsp]
    exact hnd
  · obtain ⟨hm, hpre⟩ := splitOnKey_eq_some hsp
    rcases hpost : post.getLast? with _ | last
    · have hpost0 : post = [] := List.getLast?_eq_none_iff.mp hpost
      subst hpost0
      subst hm
      rw [tremove_eq_pop hsp hpost]
      simp only [tkeys_append] at hnd
      exact hnd.of_append_left
    · obtain ⟨ys, hys⟩ := List.getLast?_eq_some_iff.mp hpost
      subst hys
      subst hm
      rw [tremove_eq_swap hsp hpost]
      simp only [List.dropLast_concat]
      simp only [tkeys_append, tkeys_cons, tkeys_nil] at hnd
      rw [tkeys_append, tkeys_cons]
      have hsub : (tkeys pre ++ (tkeys ys ++ [last.1])).Sublist
          (tkeys pre ++ tag :: (tkeys ys ++ [last.1])) :=
        (List.sublist_cons_self _ _).append_left _
      have hnd1 : (tkeys pre ++ (tkeys ys ++ [last.1])).Nodup :=
        hnd.sublist hsub
      have hperm : (tkeys pre ++ (tkeys ys ++ [last.1])).Perm
          (tkeys pre ++ (last.1 :: tkeys ys)) :=
        List.Perm.append_left _ (List.perm_append_singleton _ _)
      exact hperm.nodup hnd1


/-! Helper lemmas about the tick pass and the removal sweep. -/

theorem tickPass_fst (entity delta : Nat) (m : TimersMap) :
    (tickPass entity delta m).1 = m.map (fun p => (p.1, (p.2.tick delta).1)) := by
  induction m with
  | nil => rfl
  | cons p rest ih =>
    rcases p with ⟨k, t⟩
    simp only [tickPass, List.map_cons]
    split_ifs <;> simp [ih]

theorem tickPass_keys (entity delta : Nat) (m : TimersMap) :
    tkeys (tickPass entity delta m).1 = tkeys m := by
  induction m with
  | nil => rfl
  | cons p rest ih =>
    rcases p with ⟨k, t⟩
    simp only [tickPass]
    split_ifs <;> simp [tkeys_cons, ih]

theorem tickPass_nodup {entity delta : Nat} {m : TimersMap}
    (hnd : (tkeys m).Nodup) : (tkeys (tickPass entity delta m).1).Nodup := by
  rw [tickPass_keys]
  exact hnd

theorem tickPass_mem {entity delta : Nat} {m : TimersMap} {tag : TagId}
    {u : Timer} :
    (tag, u) ∈ (tickPass entity delta m).1 ↔
      ∃ t, (tag, t) ∈ m ∧ u = (t.tick delta).1 := by
  rw [tickPass_fst]
  constructor
  · intro h
    obtain ⟨p, hp, heq⟩ := List.mem_map.mp h
    rcases p with ⟨k, t⟩
    simp only [Prod.mk.injEq] at heq
    exact ⟨t, heq.1 ▸ hp, heq.2.symm⟩
  · rintro ⟨t, ht, rfl⟩
    exact List.mem_map.mpr ⟨(tag, t), ht, rfl⟩

theorem tickPass_fired_count_of_none {entity delta : Nat} {m : TimersMap}
    {tag : TagId} (h : tag ∉ tkeys m) :
    ((tickPass entity delta m).2.1).count (Notif.finished entity tag) = 0 := by
  induction m with
  | nil => rfl
  | cons p rest ih =>
    rcases p with ⟨k, t⟩
    simp only [tkeys_cons, List.mem_cons, not_or] at h
    have hkt : Notif.finished entity k ≠ Notif.finished entity tag := by
      intro hq
      injection hq with h1 h2
      exact h.1 h2.symm
    simp only [tickPass]
    split_ifs <;> simp [List.count_cons, hkt, ih h.2]

theorem tickPass_fired_count_of_some {entity delta : Nat} {m : TimersMap}
    {tag : TagId} {t : Timer} (hnd : (tkeys m).Nodup)
    (h : tget m tag = some t) :
    ((tickPass entity delta m).2.1).count (Notif.finished entity tag)
      = if (t.tick delta).2 then 1 else 0 := by
  induction m with
  | nil => simp [tget] at h
  | cons p rest ih =>
    rcases p with ⟨k, u⟩
    simp only [tkeys_cons, List.nodup_cons] at hnd
    simp only [tget] at h
    split at h
    · next hk =>
        subst hk
        injection h with h2
        subst h2
        have hz : ((tickPass entity delta rest).2.1).count
            (Notif.finished entity k) = 0 :=
          tickPass_fired_count_of_none hnd.1
        cases hjf : (u.tick delta).2 with
        | false => simp [tickPass, hjf, hz]
        | true => simp [tickPass, hjf, hz, List.count_cons]
    · next hk =>
        have hkt : Notif.finished entity k ≠ Notif.finished entity tag := by
          intro hq
          injection hq with h1 h2
          exact hk h2
        cases hjf : (u.tick delta).2 with
        | false => simpa [tickPass, hjf] using ih hnd.2 h
        | true => simpa [tickPass, hjf, List.count_cons, hkt] using ih hnd.2 h

theorem tickPass_removal_mem {entity delta : Nat} {m : TimersMap}
    {tag : TagId} (hnd : (tkeys m).Nodup) :
    tag ∈ (tickPass entity delta m).2.2 ↔
      ∃ t, tget m tag = some t ∧ (t.tick delta).2 = true ∧
        (t.tick delta).1.mode = TimerMode.once := by
  induction m with
  | nil => simp [tickPass, tget]
  | cons p rest ih =>
    rcases p with ⟨k, u⟩
    simp only [tkeys_cons, List.nodup_cons] at hnd
    by_cases hk : k = tag
    · subst hk
      have hget0 : tget rest k = none := (tget_eq_none_iff).mpr hnd.1
      have hrest : k ∉ (tickPass entity delta rest).2.2 := by
        rw [ih hnd.2]
        rintro ⟨t, ht, _⟩
        rw [hget0] at ht
        exact Option.noConfusion ht
      cases hjf : (u.tick delta).2 with
      | false =>
        have hL : k ∈ (tickPass entity delta ((k, u) :: rest)).2.2 ↔
            k ∈ (tickPass entity delta rest).2.2 := by
          simp [tickPass, hjf]
        rw [hL]
        simp [hrest, tget, hjf]
      | true =>
        by_cases hmode : (u.tick delta).1.mode = TimerMode.once
        · have hL : k ∈ (tickPass entity delta ((k, u) :: rest)).2.2 := by
            simp [tickPass, hjf, hmode]
          simp [hL, tget, hjf, hmode]
        · have hL : k ∈ (tickPass entity delta ((k, u) :: rest)).2.2 ↔
              k ∈ (tickPass entity delta rest).2.2 := by
            simp [tickPass, hjf, hmode]
          rw [hL]
          simp [hrest, tget, hjf, hmode]
    · have hL : tag ∈ (tickPass entity delta ((k, u) :: rest)).2.2 ↔
          tag ∈ (tickPass entity delta rest).2.2 := by
        cases hjf : (u.tick delta).2 with
        | false => simp [tickPass, hjf]
        | true =>
          by_cases hmode : (u.tick delta).1.mode = TimerMode.once
          · simp [tickPass, hjf, hmode, List.mem_cons]
            exact fun h1 => absurd h1.symm hk
          · simp [tickPass, hjf, hmode]
      rw [hL, ih hnd.2]
      simp only [tget, if_neg hk]

theorem sweepRemove_mem {m : TimersMap} {ks : List TagId} {p : TagId × Timer}
    (hnd : (tkeys m).Nodup) :
    p ∈ sweepRemove m ks ↔ p ∈ m ∧ p.1 ∉ ks := by
  induction ks generalizing m with
  | nil => simp [sweepRemove]
  | cons k rest ih =>
    have hstep : sweepRemove m (k :: rest) = sweepRemove (tremove m k).1 rest := rfl
    rw [hstep, ih (tremove_nodup hnd), tremove_mem hnd]
    simp only [List.mem_cons, not_or]
    tauto

theorem sweepRemove_nodup {m : TimersMap} {ks : List TagId}
    (hnd : (tkeys m).Nodup) : (tkeys (sweepRemove m ks)).Nodup := by
  induction ks generalizing m with
  | nil => exact hnd
  | cons k rest ih =>
    have hstep : sweepRemove m (k :: rest) = sweepRemove (tremove m k).1 rest := rfl
    rw [hstep]
    exact ih (tremove_nodup hnd)

theorem tet_notifs (entity delta : Nat) (m : TimersMap) :
    (tick_entity_timers entity delta m).2 = (tickPass entity delta m).2.1 := rfl

theorem tet_mem {entity delta : Nat} {m : TimersMap} {tag : TagId} {u : Timer}
    (hnd : (tkeys m).Nodup) :
    (tag, u) ∈ (tick_entity_timers entity delta m).1 ↔
      (∃ t, (tag, t) ∈ m ∧ u = (t.tick delta).1) ∧
        tag ∉ (tickPass entity delta m).2.2 := by
  have h1 : (tick_entity_timers entity delta m).1
      = sweepRemove (tickPass entity delta m).1 (tickPass entity delta m).2.2 := rfl
  rw [h1, sweepRemove_mem (tickPass_nodup hnd), tickPass_mem]

theorem tet_nodup {entity delta : Nat} {m : TimersMap}
    (hnd : (tkeys m).Nodup) :
    (tkeys (tick_entity_timers entity delta m).1).Nodup :=
  sweepRemove_nodup (tickPass_nodup hnd)

theorem tremove_tget_self {m : TimersMap} {tag : TagId}
    (hnd : (tkeys m).Nodup) : tget (tremove m tag).1 tag = none := by
  rw [tget_eq_none_iff]
  intro hmem
  obtain ⟨p, hp, hp1⟩ := List.mem_map.mp hmem
  have := (tremove_mem hnd).mp hp
  exact this.2 hp1

theorem tinsert_tget_self {m : TimersMap} {tag : TagId} {t : Timer} :
    tget (tinsert m tag t) tag = some t := by
  induction m with
  | nil => simp [tinsert, tget]
  | cons p rest ih =>
    rcases p with ⟨k, u⟩
    by_cases hk : k = tag
    · simp [tinsert, hk, tget]
    · simp only [tinsert, if_neg hk, tget, ih]

theorem tinsert_keys_of_not_mem {m : TimersMap} {tag : TagId} {t : Timer}
    (h : tag ∉ tkeys m) : tkeys (tinsert m tag t) = tkeys m ++ [tag] := by
  induction m with
  | nil => rfl
  | cons p rest ih =>
    rcases p with ⟨k, u⟩
    simp only [tkeys_cons, List.mem_cons, not_or] at h
    have hkne : ¬k = tag := fun hk => h.1 hk.symm
    simp only [tinsert, if_neg hkne, tkeys_cons, ih h.2, List.cons_append]

theorem tinsert_keys_of_mem {m : TimersMap} {tag : TagId} {t : Timer}
    (h : tag ∈ tkeys m) : tkeys (tinsert m tag t) = tkeys m := by
  induction m with
  | nil => simp [tkeys] at h
  | cons p rest ih =>
    rcases p with ⟨k, u⟩
    by_cases hk : k = tag
    · simp [tinsert, hk, tkeys_cons]
    · simp only [tkeys_cons, List.mem_cons] at h
      rcases h with h1 | h1
      · exact absurd h1.symm hk
      · simp only [tinsert, if_neg hk, tkeys_cons, ih h1]

theorem splitOnKey_append_last {m : TimersMap} {tag : TagId} {t : Timer}
    (h : tag ∉ tkeys m) :
    splitOnKey (m ++ [(tag, t)]) tag = some (m, t, []) := by
  induction m with
  | nil => simp [splitOnKey]
  | cons p rest ih =>
    rcases p with ⟨k, u⟩
    simp only [tkeys_cons, List.mem_cons, not_or] at h
    have hkne : ¬k = tag := fun hk => h.1 hk.symm
    rw [List.cons_append]
    simp only [splitOnKey, if_neg hkne, ih h.2]

theorem wset_self {w : World} {entity : Nat} {v : Option TimersMap}
    (h : wget w entity = some v) : wset w entity v = w := by
  induction w with
  | nil => rfl
  | cons p rest ih =>
    rcases p with ⟨e, c⟩
    simp only [wget] at h
    split at h
    · next he =>
        subst he
        injection h with h2
        subst h2
        simp [wset]
    · next he => simp only [wset, if_neg he, ih h]

theorem wget_wset_self {w : World} {entity : Nat} {v0 v : Option TimersMap}
    (h : wget w entity = some v0) : wget (wset w entity v) entity = some v := by
  induction w with
  | nil => simp [wget] at h
  | cons p rest ih =>
    rcases p with ⟨e, c⟩
    by_cases he : e = entity
    · simp [wset, wget, he]
    · simp only [wget, if_neg he] at h
      simp only [wset, if_neg he, wget, ih h]

theorem inert_step {entity delta : Nat} {m : TimersMap} {tag : TagId}
    {t : Timer} (hnd : (tkeys m).Nodup) (hmem : (tag, t) ∈ m)
    (ht : t.tick delta = (t, false)) :
    (tag, t) ∈ (tick_entity_timers entity delta m).1 ∧
      ((tick_entity_timers entity delta m).2).count (Notif.finished entity tag)
        = 0 := by
  have hget := mem_tget hnd hmem
  constructor
  · rw [tet_mem hnd]
    refine ⟨⟨t, hmem, by rw [ht]⟩, ?_⟩
    rw [tickPass_removal_mem hnd]
    rintro ⟨t0, ht0, hjf, _⟩
    rw [hget] at ht0
    injection ht0 with h2
    subst h2
    rw [ht] at hjf
    simp at hjf
  · rw [tet_notifs, tickPass_fired_count_of_some hnd hget, ht]
    simp

theorem repeating_survives {entity delta : Nat} {m : TimersMap} {tag : TagId}
    {t : Timer} (hnd : (tkeys m).Nodup) (hmem : (tag, t) ∈ m)
    (hmode : t.mode = TimerMode.repeating) :
    (tag, (t.tick delta).1) ∈ (tick_entity_timers entity delta m).1 := by
  rw [tet_mem hnd]
  refine ⟨⟨t, hmem, rfl⟩, ?_⟩
  rw [tickPass_removal_mem hnd]
  rintro ⟨t0, ht0, _, honce⟩
  rw [mem_tget hnd hmem] at ht0
  injection ht0 with h2
  subst h2
  rw [Timer.tick_mode, hmode] at honce
  exact TimerMode.noConfusion honce

theorem repeating_exact_cycle {D : Nat} (hD : 0 < D) :
    (⟨D, 0, TimerMode.repeating, false⟩ : Timer).tick D
      = (⟨D, 0, TimerMode.repeating, false⟩, true) := by
  have hne : D ≠ 0 := Nat.pos_iff_ne_zero.mp hD
  simp [Timer.tick, hne, Nat.mod_self]

/-- C3: a timer of duration zero is legal but inert: over any number of tick
invocations of any delta, it never just-finishes, so it emits no Finished
notification, is never auto-removed, and its state is unchanged. (The Timer
primitive is modelled from the spec: such a timer's derived finished
predicate already holds, so it never *becomes* finished.) -/
theorem C3_zero_duration_inert (entity delta n : Nat) (m : TimersMap)
    (tag : TagId) (t : Timer) (hnd : (tkeys m).Nodup)
    (hmem : (tag, t) ∈ m) (hdur : t.duration = 0) :
    (tag, t) ∈ (tickIter entity delta n m).1 ∧
      ((tickIter entity delta n m).2).count (Notif.finished entity tag) = 0 := by
  induction n generalizing m with
  | zero => exact ⟨hmem, rfl⟩
  | succ n ih =>
    have ht : t.tick delta = (t, false) := Timer.tick_zero_duration t delta hdur
    obtain ⟨h1, h2⟩ := inert_step hnd hmem ht
    obtain ⟨h3, h4⟩ := ih _ (tet_nodup hnd) h1
    constructor
    · exact h3
    · simp only [tickIter, List.count_append]
      omega

/-- C3 witness: a concrete zero-duration timer survives two 7-delta ticks
unchanged and fires nothing. -/
theorem C3_witness :
    ((3 : TagId), (⟨0, 0, TimerMode.once, false⟩ : Timer)) ∈
        (tickIter 1 7 2 [(3, ⟨0, 0, TimerMode.once, false⟩)]).1 ∧
      ((tickIter 1 7 2 [(3, ⟨0, 0, TimerMode.once, false⟩)]).2).count
        (Notif.finished 1 3) = 0 :=
  C3_zero_duration_inert 1 7 2 [(3, ⟨0, 0, TimerMode.once, false⟩)] 3
    ⟨0, 0, TimerMode.once, false⟩ (by decide) (by decide) rfl

/-- C7: a tick invocation never removes a `Repeating` timer: any tag bound to
a repeating timer before the tick is still present after it, holding the
ticked timer, even if the timer just finished during the tick. -/
theorem C7_repeating_survives_tick (entity delta : Nat) (m : TimersMap)
    (tag : TagId) (t : Timer) (hnd : (tkeys m).Nodup)
    (hmem : (tag, t) ∈ m) (hmode : t.mode = TimerMode.repeating) :
    (tag, (t.tick delta).1) ∈ (tick_entity_timers entity delta m).1 :=
  repeating_survives hnd hmem hmode

/-- C7 witness: a repeating timer that just finished on this tick is still
present afterwards. -/
theorem C7_witness :
    ((4 : TagId), ((⟨5, 0, TimerMode.repeating, false⟩ : Timer).tick 5).1) ∈
      (tick_entity_timers 0 5 [(4, ⟨5, 0, TimerMode.repeating, false⟩)]).1 :=
  C7_repeating_survives_tick 0 5 [(4, ⟨5, 0, TimerMode.repeating, false⟩)] 4
    ⟨5, 0, TimerMode.repeating, false⟩ (by decide) (by decide) rfl

/-- C9: the tick routine calls advance on every timer without special-casing
pause, yet a paused timer's elapsed progress is unchanged by any tick and it
emits no Finished notification; unpausing resumes accumulation from the
retained elapsed value. -/
theorem C9_pause_freeze (entity delta : Nat) (m : TimersMap) (tag : TagId)
    (t : Timer) (hnd : (tkeys m).Nodup) (hmem : (tag, t) ∈ m)
    (hp : t.paused = true) :
    (tag, t) ∈ (tick_entity_timers entity delta m).1 ∧
      ((tick_entity_timers entity delta m).2).count (Notif.finished entity tag)
        = 0 ∧
      ∀ d2 : Nat, t.elapsed + d2 < t.duration →
        ((t.unpause).tick d2).1.elapsed = t.elapsed + d2 := by
  obtain ⟨h1, h2⟩ := inert_step hnd hmem (Timer.tick_paused t delta hp)
  refine ⟨h1, h2, ?_⟩
  intro d2 hlt
  rcases t with ⟨d, el, mode, p⟩
  simp only at hlt
  have h3 : ¬d ≤ el + d2 := by omega
  have h4 : ¬d ≤ el := by omega
  have h5 : ¬d = 0 := by omega
  rcases mode <;> simp [Timer.unpause, Timer.tick, h3, h4, h5]

/-- C9 witness: a paused timer at 2/5 elapsed survives a 9-delta tick
unchanged with no notification, and after unpausing a 2-delta tick brings it
to 4/5. -/
theorem C9_witness :
    ((6 : TagId), (⟨5, 2, TimerMode.once, true⟩ : Timer)) ∈
        (tick_entity_timers 0 9 [(6, ⟨5, 2, TimerMode.once, true⟩)]).1 ∧
      ((tick_entity_timers 0 9 [(6, ⟨5, 2, TimerMode.once, true⟩)]).2).count
        (Notif.finished 0 6) = 0 ∧
      ∀ d2 : Nat, 2 + d2 < 5 →
        (((⟨5, 2, TimerMode.once, true⟩ : Timer).unpause).tick d2).1.elapsed
          = 2 + d2 :=
  C9_pause_freeze 0 9 [(6, ⟨5, 2, TimerMode.once, true⟩)] 6
    ⟨5, 2, TimerMode.once, true⟩ (by decide) (by decide) rfl

/-- C10: during one tick invocation the only tags removed are those whose
timers just finished with mode `Once` (stated as an iff on the post-tick
lookup), and an already-finished `Once` timer in particular is not removed,
stays unchanged, and emits no further Finished notification. -/
theorem C10_only_just_finished_once_removed (entity delta : Nat)
    (m : TimersMap) (tag : TagId) (t : Timer) (hnd : (tkeys m).Nodup)
    (hget : tget m tag = some t) :
    (tget (tick_entity_timers entity delta m).1 tag = none ↔
      (t.tick delta).2 = true ∧ (t.tick delta).1.mode = TimerMode.once) ∧
    (t.mode = TimerMode.once → t.duration ≤ t.elapsed →
      (tag, t) ∈ (tick_entity_timers entity delta m).1 ∧
        ((tick_entity_timers entity delta m).2).count (Notif.finished entity tag)
          = 0) := by
  constructor
  · constructor
    · intro hnone
      by_cases hrem : tag ∈ (tickPass entity delta m).2.2
      · rw [tickPass_removal_mem hnd] at hrem
        obtain ⟨t0, ht0, hjf, honce⟩ := hrem
        rw [hget] at ht0
        injection ht0 with h2
        subst h2
        exact ⟨hjf, honce⟩
      · exfalso
        have hm2 : (tag, (t.tick delta).1) ∈ (tick_entity_timers entity delta m).1 := by
          rw [tet_mem hnd]
          exact ⟨⟨t, tget_mem hget, rfl⟩, hrem⟩
        have hm3 := mem_tget (tet_nodup hnd) hm2
        rw [hnone] at hm3
        exact Option.noConfusion hm3
    · rintro ⟨hjf, honce⟩
      rw [tget_eq_none_iff]
      intro hmem
      obtain ⟨p, hp, hp1⟩ := List.mem_map.mp hmem
      rcases p with ⟨k, u⟩
      simp only at hp1
      subst hp1
      rw [tet_mem hnd] at hp
      exact hp.2 ((tickPass_removal_mem hnd).mpr ⟨t, hget, hjf, honce⟩)
  · intro hmode hfin
    exact inert_step hnd (tget_mem hget)
      (Timer.tick_once_finished t delta hmode hfin)

/-- C10 witness: an already-finished `Once` timer (5/5 elapsed) is neither
removed nor re-fired by a 9-delta tick. -/
theorem C10_witness :
    (tget (tick_entity_timers 0 9 [(2, ⟨5, 5, TimerMode.once, false⟩)]).1 2
        = none ↔
      (((⟨5, 5, TimerMode.once, false⟩ : Timer).tick 9).2 = true ∧
        ((⟨5, 5, TimerMode.once, false⟩ : Timer).tick 9).1.mode
          = TimerMode.once)) ∧
    ((⟨5, 5, TimerMode.once, false⟩ : Timer).mode = TimerMode.once →
      (⟨5, 5, TimerMode.once, false⟩ : Timer).duration ≤
          (⟨5, 5, TimerMode.once, false⟩ : Timer).elapsed →
      ((2 : TagId), (⟨5, 5, TimerMode.once, false⟩ : Timer)) ∈
          (tick_entity_timers 0 9 [(2, ⟨5, 5, TimerMode.once, false⟩)]).1 ∧
        ((tick_entity_timers 0 9 [(2, ⟨5, 5, TimerMode.once, false⟩)]).2).count
          (Notif.finished 0 2) = 0) :=
  C10_only_just_finished_once_removed 0 9 [(2, ⟨5, 5, TimerMode.once, false⟩)]
    2 ⟨5, 5, TimerMode.once, false⟩ (by decide) (by decide)

/-- C4: a `Once` timer that just finishes during a tick invocation fires
exactly one Finished notification at (entity, tag), is still present (ticked)
in the map produced by the iteration pass — removal happens only in the sweep
after the pass — and its tag is absent from the map once the invocation
completes. -/
theorem C4_once_single_fire_and_removal (entity delta : Nat) (m : TimersMap)
    (tag : TagId) (t : Timer) (hnd : (tkeys m).Nodup)
    (hget : tget m tag = some t) (hmode : t.mode = TimerMode.once)
    (hjf : (t.tick delta).2 = true) :
    ((tick_entity_timers entity delta m).2).count (Notif.finished entity tag)
        = 1 ∧
      (tag, (t.tick delta).1) ∈ (tickPass entity delta m).1 ∧
      tget (tick_entity_timers entity delta m).1 tag = none := by
  have honce : (t.tick delta).1.mode = TimerMode.once := by
    rw [Timer.tick_mode, hmode]
  refine ⟨?_, ?_, ?_⟩
  · rw [tet_notifs, tickPass_fired_count_of_some hnd hget]
    simp [hjf]
  · rw [tickPass_mem]
    exact ⟨t, tget_mem hget, rfl⟩
  · rw [tget_eq_none_iff]
    intro hmem
    obtain ⟨p, hp, hp1⟩ := List.mem_map.mp hmem
    rcases p with ⟨k, u⟩
    simp only at hp1
    subst hp1
    rw [tet_mem hnd] at hp
    exact hp.2 ((tickPass_removal_mem hnd).mpr ⟨t, hget, hjf, honce⟩)

/-- C4 witness: a 5-duration `Once` timer ticked by 6 fires once, is present
in the pass result, and is gone from the map after the sweep. -/
theorem C4_witness :
    ((tick_entity_timers 0 6 [(8, ⟨5, 0, TimerMode.once, false⟩)]).2).count
        (Notif.finished 0 8) = 1 ∧
      ((8 : TagId), ((⟨5, 0, TimerMode.once, false⟩ : Timer).tick 6).1) ∈
        (tickPass 0 6 [(8, ⟨5, 0, TimerMode.once, false⟩)]).1 ∧
      tget (tick_entity_timers 0 6 [(8, ⟨5, 0, TimerMode.once, false⟩)]).1 8
        = none :=
  C4_once_single_fire_and_removal 0 6 [(8, ⟨5, 0, TimerMode.once, false⟩)] 8
    ⟨5, 0, TimerMode.once, false⟩ (by decide) (by decide) rfl (by decide)

/-- C1 counterexample: the tick system triggers at most one Finished
notification per timer per tick invocation (it tests the boolean
just-finished flag), so two full periods of a duration-1 repeating timer
delivered in a single tick of delta 2 emit one notification, not two as the
claim requires for cumulative delta N·D delivered in a single tick. -/
theorem C1_counterexample :
    ((tick_entity_timers 0 2 [(5, ⟨1, 0, TimerMode.repeating, false⟩)]).2).count
        (Notif.finished 0 5) = 1 ∧
      ((tick_entity_timers 0 2 [(5, ⟨1, 0, TimerMode.repeating, false⟩)]).2).count
        (Notif.finished 0 5) ≠ 2 := by
  decide

/-- C1 amended: a fresh repeating timer of duration D > 0 ticked over N
invocations of delta D fires exactly N Finished notifications at
(entity, tag) — one per tick invocation that crosses a cycle boundary — and
remains present in the map, with elapsed wrapped to 0, until cancelled.
(A single tick spanning several full periods still fires only once.) -/
theorem C1_repeating_fires_once_per_boundary_tick (entity D N : Nat)
    (m : TimersMap) (tag : TagId) (hnd : (tkeys m).Nodup) (hD : 0 < D)
    (hmem : (tag, (⟨D, 0, TimerMode.repeating, false⟩ : Timer)) ∈ m) :
    (tag, (⟨D, 0, TimerMode.repeating, false⟩ : Timer)) ∈
        (tickIter entity D N m).1 ∧
      ((tickIter entity D N m).2).count (Notif.finished entity tag) = N := by
  induction N generalizing m with
  | zero => exact ⟨hmem, rfl⟩
  | succ n ih =>
    have htick := repeating_exact_cycle hD
    have h1 : (tag, (⟨D, 0, TimerMode.repeating, false⟩ : Timer)) ∈
        (tick_entity_timers entity D m).1 := by
      have h0 := @repeating_survives entity D m tag
        ⟨D, 0, TimerMode.repeating, false⟩ hnd hmem rfl
      rwa [htick] at h0
    obtain ⟨h3, h4⟩ := ih _ (tet_nodup hnd) h1
    have hc : ((tick_entity_timers entity D m).2).count (Notif.finished entity tag)
        = 1 := by
      rw [tet_notifs, tickPass_fired_count_of_some hnd (mem_tget hnd hmem), htick]
      simp
    refine ⟨h3, ?_⟩
    simp only [tickIter, List.count_append]
    omega

/-- C1 witness: a duration-2 repeating timer ticked three times by 2 fires
three notifications and stays present. -/
theorem C1_witness :
    ((5 : TagId), (⟨2, 0, TimerMode.repeating, false⟩ : Timer)) ∈
        (tickIter 0 2 3 [(5, ⟨2, 0, TimerMode.repeating, false⟩)]).1 ∧
      ((tickIter 0 2 3 [(5, ⟨2, 0, TimerMode.repeating, false⟩)]).2).count
        (Notif.finished 0 5) = 3 :=
  C1_repeating_fires_once_per_boundary_tick 0 2 3
    [(5, ⟨2, 0, TimerMode.repeating, false⟩)] 5 (by decide) (by decide)
    (by decide)

/-- C2 counterexample: `Timers::remove` is `IndexMap::swap_remove`, which
moves the last entry into the removed slot: removing tag 1 from the map with
insertion order [1, 2, 3] leaves iteration order [3, 2], not the
first-insertion order [2, 3] the claim requires. -/
theorem C2_counterexample :
    tkeys (tremove [(1, ⟨5, 0, TimerMode.once, false⟩),
        (2, ⟨5, 0, TimerMode.once, false⟩),
        (3, ⟨5, 0, TimerMode.once, false⟩)] 1).1 = [3, 2] ∧
      tkeys (tremove [(1, ⟨5, 0, TimerMode.once, false⟩),
        (2, ⟨5, 0, TimerMode.once, false⟩),
        (3, ⟨5, 0, TimerMode.once, false⟩)] 1).1 ≠ [2, 3] := by
  decide

/-- C2 amended: `iter`/`iter_mut` yield pairs in first-insertion order as
long as only inserts occur — a fresh tag appends at the end and an existing
tag is updated in place — but `remove` is a swap-remove that moves the last
entry into the removed slot, so removals do not preserve first-insertion
order in general; removing the last entry does preserve the order of the
remaining tags. -/
theorem C2_insert_order_swap_remove (m : TimersMap) (tag : TagId) (t : Timer) :
    (tag ∉ tkeys m → tkeys (tinsert m tag t) = tkeys m ++ [tag]) ∧
    (tag ∈ tkeys m → tkeys (tinsert m tag t) = tkeys m) ∧
    (tag ∉ tkeys m → tremove (m ++ [(tag, t)]) tag = (m, some t)) :=
  ⟨fun h => tinsert_keys_of_not_mem h,
   fun h => tinsert_keys_of_mem h,
   fun h => tremove_eq_pop (splitOnKey_append_last h) rfl⟩

/-- C2 witness: inserting fresh tag 9 after tag 2 appends; re-inserting tag 2
keeps the key order; removing the last entry 9 pops it and preserves order. -/
theorem C2_witness :
    tkeys (tinsert [(2, ⟨5, 0, TimerMode.once, false⟩)] 9
        ⟨5, 0, TimerMode.once, false⟩) = [2, 9] ∧
      tkeys (tinsert [(2, ⟨5, 0, TimerMode.once, false⟩)] 2
        ⟨5, 0, TimerMode.once, false⟩) = [2] ∧
      tremove ([(2, ⟨5, 0, TimerMode.once, false⟩)] ++
          [(9, ⟨5, 0, TimerMode.once, false⟩)]) 9
        = ([(2, ⟨5, 0, TimerMode.once, false⟩)],
            some ⟨5, 0, TimerMode.once, false⟩) :=
  ⟨(C2_insert_order_swap_remove [(2, ⟨5, 0, TimerMode.once, false⟩)] 9
      ⟨5, 0, TimerMode.once, false⟩).1 (by decide),
   (C2_insert_order_swap_remove [(2, ⟨5, 0, TimerMode.once, false⟩)] 2
      ⟨5, 0, TimerMode.once, false⟩).2.1 (by decide),
   (C2_insert_order_swap_remove [(2, ⟨5, 0, TimerMode.once, false⟩)] 9
      ⟨5, 0, TimerMode.once, false⟩).2.2 (by decide)⟩

/-- C5: cancelling removes the timer at the tag and emits exactly one
Cancelled notification (and no Finished notification) precisely when a timer
was present; when the entity, its component, or the tag is absent, no
notification is emitted and the world is unchanged. -/
theorem C5_cancel_iff_present (w : World) (entity : Nat) (tag : TagId) :
    (∀ m t, wget w entity = some (some m) → (tkeys m).Nodup →
      tget m tag = some t →
      CancelTimer.apply w entity tag
          = (wset w entity (some (tremove m tag).1),
              [Notif.cancelled entity tag]) ∧
        tget (tremove m tag).1 tag = none ∧
        ((CancelTimer.apply w entity tag).2).count (Notif.finished entity tag)
          = 0) ∧
    ((wget w entity = none ∨ wget w entity = some none ∨
        ∃ m, wget w entity = some (some m) ∧ tget m tag = none) →
      CancelTimer.apply w entity tag = (w, [])) := by
  constructor
  · intro m t h hnd hget
    have happ : CancelTimer.apply w entity tag
        = (wset w entity (some (tremove m tag).1),
            if (tremove m tag).2.isSome then [Notif.cancelled entity tag]
            else []) := by
      unfold CancelTimer.apply
      rw [h]
    rw [tremove_snd, hget] at happ
    simp only [Option.isSome_some, if_true] at happ
    refine ⟨happ, tremove_tget_self hnd, ?_⟩
    rw [happ]
    simp
  · intro h
    rcases h with h1 | h1 | ⟨m, h1, hget0⟩
    · unfold CancelTimer.apply
      rw [h1]
    · unfold CancelTimer.apply
      rw [h1]
    · have hrm := tremove_of_not_mem ((tget_eq_none_iff).mp hget0)
      have happ : CancelTimer.apply w entity tag
          = (wset w entity (some (tremove m tag).1),
              if (tremove m tag).2.isSome then [Notif.cancelled entity tag]
              else []) := by
        unfold CancelTimer.apply
        rw [h1]
      rw [hrm] at happ
      rw [happ, wset_self h1]
      simp

/-- C5 witness: cancelling present tag 1 removes it and emits exactly one
Cancelled; cancelling the absent tag 9 is a silent no-op. -/
theorem C5_witness :
    (CancelTimer.apply [(0, some [(1, ⟨5, 0, TimerMode.once, false⟩)])] 0 1
        = (wset [(0, some [(1, ⟨5, 0, TimerMode.once, false⟩)])] 0
            (some (tremove [(1, ⟨5, 0, TimerMode.once, false⟩)] 1).1),
            [Notif.cancelled 0 1]) ∧
      tget (tremove [(1, ⟨5, 0, TimerMode.once, false⟩)] 1).1 1 = none ∧
      ((CancelTimer.apply [(0, some [(1, ⟨5, 0, TimerMode.once, false⟩)])]
          0 1).2).count (Notif.finished 0 1) = 0) ∧
    CancelTimer.apply [(0, some [(1, ⟨5, 0, TimerMode.once, false⟩)])] 0 9
      = ([(0, some [(1, ⟨5, 0, TimerMode.once, false⟩)])], []) :=
  ⟨(C5_cancel_iff_present [(0, some [(1, ⟨5, 0, TimerMode.once, false⟩)])]
      0 1).1 [(1, ⟨5, 0, TimerMode.once, false⟩)] ⟨5, 0, TimerMode.once, false⟩
      rfl (by decide) (by decide),
   (C5_cancel_iff_present [(0, some [(1, ⟨5, 0, TimerMode.once, false⟩)])]
      0 9).2 (Or.inr (Or.inr ⟨[(1, ⟨5, 0, TimerMode.once, false⟩)], rfl,
        by decide⟩))⟩

/-- C6: on an existing entity, the start command takes the entity's `Timers`
component or a fresh empty one, inserts the timer at the tag unconditionally
replacing any previous timer there, emits no notification, and afterwards
`get(tag)` returns exactly the supplied timer. -/
theorem C6_start_inserts_replacing (w : World) (entity : Nat) (tag : TagId)
    (timer : Timer) (slot : Option TimersMap)
    (h : wget w entity = some slot) :
    StartTimer.apply w entity tag timer
        = (wset w entity (some (tinsert (slot.getD []) tag timer)), []) ∧
      wget (StartTimer.apply w entity tag timer).1 entity
        = some (some (tinsert (slot.getD []) tag timer)) ∧
      tget (tinsert (slot.getD []) tag timer) tag = some timer := by
  have happ : StartTimer.apply w entity tag timer
      = (wset w entity (some (tinsert (slot.getD []) tag timer)), []) := by
    unfold StartTimer.apply
    rw [h]
  refine ⟨happ, ?_, tinsert_tget_self⟩
  rw [happ]
  exact wget_wset_self h

/-- C6 witness: starting tag 3 on an entity that has no `Timers` component
creates the component and `get 3` returns the new timer; re-starting tag 3
with a different timer replaces it and `get 3` returns the replacement. -/
theorem C6_witness :
    (StartTimer.apply [(0, none)] 0 3 ⟨5, 0, TimerMode.once, false⟩
        = (wset [(0, none)] 0
            (some (tinsert ((none : Option TimersMap).getD []) 3
              ⟨5, 0, TimerMode.once, false⟩)), []) ∧
      wget (StartTimer.apply [(0, none)] 0 3
          ⟨5, 0, TimerMode.once, false⟩).1 0
        = some (some (tinsert ((none : Option TimersMap).getD []) 3
            ⟨5, 0, TimerMode.once, false⟩)) ∧
      tget (tinsert ((none : Option TimersMap).getD []) 3
          ⟨5, 0, TimerMode.once, false⟩) 3
        = some ⟨5, 0, TimerMode.once, false⟩) ∧
    tget (tinsert
        ((some [(3, ⟨5, 0, TimerMode.once, false⟩)] : Option TimersMap).getD [])
        3 ⟨7, 0, TimerMode.repeating, false⟩) 3
      = some ⟨7, 0, TimerMode.repeating, false⟩ :=
  ⟨C6_start_inserts_replacing [(0, none)] 0 3 ⟨5, 0, TimerMode.once, false⟩
      none rfl,
   (C6_start_inserts_replacing
      [(0, some [(3, ⟨5, 0, TimerMode.once, false⟩)])] 0 3
      ⟨7, 0, TimerMode.repeating, false⟩
      (some [(3, ⟨5, 0, TimerMode.once, false⟩)]) rfl).2.2⟩

/-- C8: every command targeting a nonexistent entity is a silent no-op, and
reset, pause, unpause and cancel are likewise silent no-ops when the entity
has no `Timers` component or the tag has no active timer; no command returns
an error (each returns the unchanged world and no notifications). -/
theorem C8_missing_target_noop (w : World) (entity : Nat) (tag : TagId)
    (timer : Timer) :
    (wget w entity = none →
      StartTimer.apply w entity tag timer = (w, []) ∧
      ResetTimer.apply w entity tag = (w, []) ∧
      PauseTimer.apply w entity tag = (w, []) ∧
      UnpauseTimer.apply w entity tag = (w, []) ∧
      CancelTimer.apply w entity tag = (w, [])) ∧
    (wget w entity = some none →
      ResetTimer.apply w entity tag = (w, []) ∧
      PauseTimer.apply w entity tag = (w, []) ∧
      UnpauseTimer.apply w entity tag = (w, []) ∧
      CancelTimer.apply w entity tag = (w, [])) ∧
    (∀ m, wget w entity = some (some m) → tget m tag = none →
      ResetTimer.apply w entity tag = (w, []) ∧
      PauseTimer.apply w entity tag = (w, []) ∧
      UnpauseTimer.apply w entity tag = (w, []) ∧
      CancelTimer.apply w entity tag = (w, [])) := by
  refine ⟨?_, ?_, ?_⟩
  · intro h
    refine ⟨?_, ?_, ?_, ?_, ?_⟩ <;> (first
      | (unfold StartTimer.apply; rw [h])
      | (unfold ResetTimer.apply; rw [h])
      | (unfold PauseTimer.apply; rw [h])
      | (unfold UnpauseTimer.apply; rw [h])
      | (unfold CancelTimer.apply; rw [h]))
  · intro h
    refine ⟨?_, ?_, ?_, ?_⟩ <;> (first
      | (unfold ResetTimer.apply; rw [h])
      | (unfold PauseTimer.apply; rw [h])
      | (unfold UnpauseTimer.apply; rw [h])
      | (unfold CancelTimer.apply; rw [h]))
  · intro m h hget0
    have hrm := tremove_of_not_mem ((tget_eq_none_iff).mp hget0)
    refine ⟨?_, ?_, ?_, ?_⟩
    · simp only [ResetTimer.apply, h, hget0]
    · simp only [PauseTimer.apply, h, hget0]
    · simp only [UnpauseTimer.apply, h, hget0]
    · have happ : CancelTimer.apply w entity tag
          = (wset w entity (some (tremove m tag).1),
              if (tremove m tag).2.isSome then [Notif.cancelled entity tag]
              else []) := by
        unfold CancelTimer.apply
        rw [h]
      rw [hrm] at happ
      rw [happ, wset_self h]
      simp

/-- C8 witness: all five commands on a world without entity 0, the four
lookup commands on an entity without the component, and the four on an
entity whose component lacks the tag, all return the unchanged world and no
notifications. -/
theorem C8_witness :
    (StartTimer.apply [] 0 1 ⟨5, 0, TimerMode.once, false⟩ = ([], []) ∧
      ResetTimer.apply [] 0 1 = ([], []) ∧
      PauseTimer.apply [] 0 1 = ([], []) ∧
      UnpauseTimer.apply [] 0 1 = ([], []) ∧
      CancelTimer.apply [] 0 1 = ([], [])) ∧
    (ResetTimer.apply [(0, none)] 0 1 = ([(0, none)], []) ∧
      PauseTimer.apply [(0, none)] 0 1 = ([(0, none)], []) ∧
      UnpauseTimer.apply [(0, none)] 0 1 = ([(0, none)], []) ∧
      CancelTimer.apply [(0, none)] 0 1 = ([(0, none)], [])) ∧
    (ResetTimer.apply [(0, some [])] 0 1 = ([(0, some [])], []) ∧
      PauseTimer.apply [(0, some [])] 0 1 = ([(0, some [])], []) ∧
      UnpauseTimer.apply [(0, some [])] 0 1 = ([(0, some [])], []) ∧
      CancelTimer.apply [(0, some [])] 0 1 = ([(0, some [])], [])) :=
  ⟨(C8_missing_target_noop [] 0 1 ⟨5, 0, TimerMode.once, false⟩).1 rfl,
   (C8_missing_target_noop [(0, none)] 0 1
      ⟨5, 0, TimerMode.once, false⟩).2.1 rfl,
   (C8_missing_target_noop [(0, some [])] 0 1
      ⟨5, 0, TimerMode.once, false⟩).2.2 [] rfl rfl⟩

end ObservedTimers
